import Mathlib

/-!
# goa-stream: the JSONL duplex pump (`stream.go`, function `reflectJSONL`)

A shallow embedding of `reflectJSONL` and of the two closures it hands to
`errgroup.Group.Go`.

Everything `reflectJSONL` talks to lies outside the repository: the
`json.Decoder`, the `json.Encoder`, the duplex object reached through
`reflect`, `os.Stderr` and `errgroup`.  The decoder, the encoder and the
methods of the duplex are therefore parameters of the embedding, each given as
the answer to its `n`-th call (`n` counted from 0, per method).  In any
execution the `n`-th call of a method that returns has returned some answer, so
quantifying over the answer functions covers every duplex, every input and every
way the two goroutines may influence each other through the duplex.

Every effect is logged as an `Event`.  A goroutine is the sequence of effects it
performs together with the error it returns.  `eg.Go` and `eg.Wait` are modelled
after `golang.org/x/sync/errgroup`: the effects and the returns of the
goroutines are interleaved under an arbitrary schedule, `Wait` returns once all
goroutines have returned, and its value is the first non-nil error returned.

The `for` loops have no bound, so they are run with a fuel that limits the
number of iterations; a goroutine that has used up its fuel is still running and
has returned nothing.  An iteration is one step of the fuel.

The duplex is assumed to have the method signatures the doc comment of `JSONL`
lists (`Send(*T) error`, `SendAndClose(*T) error`, `Recv() (*U, error)`,
`Close() error`); `reflect` panics on other signatures.
-/

namespace GoaStream

/-- Go `error` values that are not `nil`.  `EOF` is `io.EOF`; `wrapped msg e` is
what `fmt.Errorf(msg + "%w", e)` builds; `other` stands for any other error. -/
inductive Err where
  | EOF : Err
  | other (id : Nat) : Err
  | wrapped (msg : String) (inner : Err) : Err
deriving DecidableEq, Repr

/-- Go `errors.Unwrap`. -/
def Err.Unwrap : Err → Option Err
  | .wrapped _ inner => some inner
  | _ => none

/-- The answers of `dec.Decode`: the `n`-th call either fills the payload or
returns a non-nil error. -/
abbrev Decoder (T : Type) := Nat → Except Err T

/-- The answers of `enc.Encode`: the error returned by the `n`-th call, given the
value it was asked to encode (`none` is `nil`: the value was written). -/
abbrev Encoder (U : Type) := Nat → U → Option Err

/-- The object passed as `data`.  A field is `none` when `MethodByName` finds no
such method (`IsValid()` is false); otherwise it gives the answer to the `n`-th
call of the method. -/
structure Duplex (T U : Type) where
  Send : Option (Nat → T → Option Err)
  SendAndClose : Option (Nat → T → Option Err)
  Recv : Option (Nat → Except Err U)
  Close : Option (Nat → Option Err)

/-- One effect of a session, with the answer it got. -/
inductive Event (T U : Type) where
  | Decode (res : Except Err T) : Event T U
  | WriteString (s : String) : Event T U
  | Send (pay : T) (err : Option Err) : Event T U
  | SendAndClose (pay : T) (err : Option Err) : Event T U
  | Close (err : Option Err) : Event T U
  | Recv (res : Except Err U) : Event T U
  | Encode (v : U) (err : Option Err) : Event T U

/-- How a run of a `for` loop stands: still inside the loop with the fuel used
up (`spin`), left by `break` (`brk`), or left by `return err` (`ret`). -/
inductive Flow where
  | spin : Flow
  | brk : Flow
  | ret (err : Option Err) : Flow
deriving DecidableEq

/-- A goroutine started by `eg.Go`: the events it has performed, and the error it
returned (`none` while it is still running, `some none` for `return nil`). -/
structure Goroutine (T U : Type) where
  events : List (Event T U)
  returned : Option (Option Err)

/-- The progress writer `p`: `os.Stderr.WriteString` when verbose, otherwise a
function that does nothing. -/
def p {T U : Type} (verbose : Bool) (s : String) : List (Event T U) :=
  if verbose then [Event.WriteString s] else []

/-- The call `send.Call([]reflect.Value{pay})`, logged under the name of the
method `send` was bound to. -/
def sendCall {T U : Type} (sendandclose : Bool) (pay : T) (out : Option Err) : Event T U :=
  if sendandclose then Event.SendAndClose pay out else Event.Send pay out

/-- The `for` loop of the first goroutine (stream.go lines 103-125).  `n` is the
number of iterations completed so far, hence the number of calls already made to
`dec.Decode` and to `send`. -/
def sendLoop {T U : Type} (verbose : Bool) (dec : Decoder T) (send : Nat → T → Option Err)
    (sendandclose : Bool) : Nat → Nat → List (Event T U) × Flow
  | 0, _ => ([], Flow.spin)
  | fuel + 1, n =>
    match dec n with
    | Except.error err =>
      if err = Err.EOF then
        ([Event.Decode (Except.error err)] ++ p verbose "$", Flow.brk)
      else
        ([Event.Decode (Except.error err)] ++ p verbose "?",
          Flow.ret (some (Err.wrapped "input: " err)))
    | Except.ok pay =>
      let out := send n pay
      let evs : List (Event T U) :=
        [Event.Decode (Except.ok pay)] ++ p verbose "^" ++ [sendCall sendandclose pay out]
      match out with
      | some err =>
        if err = Err.EOF then
          (evs ++ p verbose "#", Flow.brk)
        else
          (evs ++ p verbose "!", Flow.ret (some (Err.wrapped "send: " err)))
      | none =>
        let rest := sendLoop verbose dec send sendandclose fuel (n + 1)
        (evs ++ rest.1, rest.2)

/-- The first goroutine (stream.go lines 102-136): the loop, then `Close` when
the loop was left by `break`, `send` is `Send`, and a `Close` method exists. -/
def sendGoroutine {T U : Type} (verbose : Bool) (dec : Decoder T) (stm : Duplex T U)
    (send : Nat → T → Option Err) (sendandclose : Bool) (fuel : Nat) : Goroutine T U :=
  match sendLoop verbose dec send sendandclose fuel 0 with
  | (evs, Flow.spin) => { events := evs, returned := none }
  | (evs, Flow.ret err) => { events := evs, returned := some err }
  | (evs, Flow.brk) =>
    if !sendandclose then
      match stm.Close with
      | some close =>
        match close 0 with
        | some err => { events := evs ++ [Event.Close (some err)], returned := some (some err) }
        | none => { events := evs ++ [Event.Close none], returned := some none }
      | none => { events := evs, returned := some none }
    else
      { events := evs, returned := some none }

/-- The `for` loop of the second goroutine (stream.go lines 142-157).  `n` is the
number of iterations completed so far, hence the number of calls already made to
`recv` and to `enc.Encode`. -/
def recvLoop {T U : Type} (verbose : Bool) (enc : Encoder U) (recv : Nat → Except Err U) :
    Nat → Nat → List (Event T U) × Flow
  | 0, _ => ([], Flow.spin)
  | fuel + 1, n =>
    match recv n with
    | Except.error err =>
      if err = Err.EOF then
        ([Event.Recv (Except.error err)] ++ p verbose "#", Flow.ret none)
      else
        ([Event.Recv (Except.error err)], Flow.ret (some err))
    | Except.ok v =>
      let evs : List (Event T U) := [Event.Recv (Except.ok v)] ++ p verbose "v"
      match enc n v with
      | some err => (evs ++ [Event.Encode v (some err)], Flow.ret (some err))
      | none =>
        let rest := recvLoop verbose enc recv fuel (n + 1)
        (evs ++ [Event.Encode v none] ++ rest.1, rest.2)

/-- The second goroutine (stream.go lines 141-158).  Its loop has no `break`. -/
def recvGoroutine {T U : Type} (verbose : Bool) (enc : Encoder U) (recv : Nat → Except Err U)
    (fuel : Nat) : Goroutine T U :=
  match recvLoop verbose enc recv fuel 0 with
  | (evs, Flow.ret err) => { events := evs, returned := some err }
  | (evs, _) => { events := evs, returned := none }

/-- A step of a goroutine as the group sees it: an effect, or its return. -/
inductive Act (T U : Type) where
  | ev (e : Event T U) : Act T U
  | ret (err : Option Err) : Act T U

/-- The steps of a goroutine in program order, ending in its return if it has
returned. -/
def Goroutine.acts {T U : Type} (g : Goroutine T U) : List (Act T U) :=
  g.events.map Act.ev ++
    (match g.returned with
     | some err => [Act.ret err]
     | none => [])

/-- The steps of a goroutine that may not have been started. -/
def actsOf {T U : Type} : Option (Goroutine T U) → List (Act T U)
  | some g => g.acts
  | none => []

/-- Whether a goroutine that may not have been started holds up `wg.Wait()`. -/
def finished {T U : Type} : Option (Goroutine T U) → Bool
  | some g => g.returned.isSome
  | none => true

/-- Two goroutines running concurrently: the schedule says whose step comes next
(`true`: the first).  When one has no step left, or the schedule is used up, the
remaining steps follow in order. -/
def interleave {α : Type} : List Bool → List α → List α → List α
  | _, [], ys => ys
  | _, x :: xs, [] => x :: xs
  | [], x :: xs, y :: ys => x :: xs ++ y :: ys
  | true :: sched, x :: xs, y :: ys => x :: interleave sched xs (y :: ys)
  | false :: sched, x :: xs, y :: ys => y :: interleave sched (x :: xs) ys

/-- The field `err` of the `errgroup.Group`: the first non-nil error returned by
a goroutine (`errOnce`). -/
def egErr {T U : Type} : List (Act T U) → Option Err
  | [] => none
  | Act.ret (some err) :: _ => some err
  | _ :: rest => egErr rest

/-- The effect of a step, if it is one. -/
def Act.event {T U : Type} : Act T U → Option (Event T U)
  | Act.ev e => some e
  | Act.ret _ => none

/-- The effects among the steps, in order. -/
def effects {T U : Type} (acts : List (Act T U)) : List (Event T U) :=
  acts.filterMap Act.event

/-- What a call of `reflectJSONL` has done: every effect in the order it
happened, and the returned error (`none` while `eg.Wait()` has not returned). -/
structure Session (T U : Type) where
  trace : List (Event T U)
  result : Option (Option Err)

/-- The first goroutine, if it is started: `send` is `Send`, or `SendAndClose`
when there is no `Send` (stream.go lines 93-102). -/
def sendSide {T U : Type} (verbose : Bool) (dec : Decoder T) (stm : Duplex T U) (fuel : Nat) :
    Option (Goroutine T U) :=
  let bound : Option (Nat → T → Option Err) × Bool :=
    match stm.Send with
    | some send => (some send, false)
    | none => (stm.SendAndClose, true)
  match bound.1 with
  | some send => some (sendGoroutine verbose dec stm send bound.2 fuel)
  | none => none

/-- The second goroutine, if it is started (stream.go lines 139-141). -/
def recvSide {T U : Type} (verbose : Bool) (enc : Encoder U) (stm : Duplex T U) (fuel : Nat) :
    Option (Goroutine T U) :=
  match stm.Recv with
  | some recv => some (recvGoroutine verbose enc recv fuel)
  | none => none

/-- `reflectJSONL` (stream.go lines 87-162).  `data = none` is a nil `data`:
`reflect.ValueOf(nil).MethodByName` panics, which is the `Except.error`. -/
def reflectJSONL {T U : Type} (dec : Decoder T) (enc : Encoder U) (data : Option (Duplex T U))
    (verbose : Bool) (sched : List Bool) (fuel : Nat) : Except String (Session T U) :=
  match data with
  | none => Except.error "reflect: call of reflect.Value.MethodByName on zero Value"
  | some stm =>
    let sg := sendSide verbose dec stm fuel
    let rg := recvSide verbose enc stm fuel
    let acts := interleave sched (actsOf sg) (actsOf rg)
    if finished sg && finished rg then
      Except.ok { trace := effects acts ++ p verbose "\n", result := some (egErr acts) }
    else
      Except.ok { trace := effects acts, result := none }

/-- The characters written with `os.Stderr.WriteString`, in order. -/
def stderrChars {T U : Type} : List (Event T U) → List Char
  | [] => []
  | Event.WriteString s :: rest => s.data ++ stderrChars rest
  | _ :: rest => stderrChars rest

/-- What `os.Stderr` has received. -/
def stderr {T U : Type} (trace : List (Event T U)) : String :=
  String.mk (stderrChars trace)

/-- The value an effect adds to the output sink: `Encode` writes the encoding of
its argument when it returns `nil`. -/
def Event.written {T U : Type} : Event T U → Option U
  | Event.Encode v none => some v
  | _ => none

/-- The values the encoder has written to the output sink, in order. -/
def stdout {T U : Type} (trace : List (Event T U)) : List U :=
  trace.filterMap Event.written

/-- Whether an effect is a call of a method of the duplex. -/
def Event.isCall {T U : Type} : Event T U → Bool
  | Event.Send _ _ => true
  | Event.SendAndClose _ _ => true
  | Event.Close _ => true
  | Event.Recv _ => true
  | _ => false

/-- The calls made on the duplex, in order. -/
def calls {T U : Type} (trace : List (Event T U)) : List (Event T U) :=
  trace.filter Event.isCall

/-- The payload a `Decode` has filled in. -/
def Event.decodedPayload {T U : Type} : Event T U → Option T
  | Event.Decode (Except.ok pay) => some pay
  | _ => none

/-- The payloads the decoder has produced, in order. -/
def decoded {T U : Type} (trace : List (Event T U)) : List T :=
  trace.filterMap Event.decodedPayload

/-- The payload handed to `SendAndClose`. -/
def Event.closingPayload {T U : Type} : Event T U → Option T
  | Event.SendAndClose pay _ => some pay
  | _ => none

/-- The payloads passed to `SendAndClose`, in order. -/
def passedToSendAndClose {T U : Type} (trace : List (Event T U)) : List T :=
  trace.filterMap Event.closingPayload

/-- The effects the second goroutine can perform. -/
def Event.ofRecvLoop {T U : Type} : Event T U → Bool
  | Event.Recv _ => true
  | Event.WriteString _ => true
  | Event.Encode _ _ => true
  | _ => false

/-- The effects the first goroutine can perform when `send` is `SendAndClose`. -/
def Event.ofSendAndCloseLoop {T U : Type} : Event T U → Bool
  | Event.Decode _ => true
  | Event.WriteString _ => true
  | Event.SendAndClose _ _ => true
  | _ => false

/-- The effects of the iterations that decode and send the payloads `rs`, every
send returning `nil`. -/
def sentRounds {T U : Type} (verbose sendandclose : Bool) : List T → List (Event T U)
  | [] => []
  | r :: rs =>
    [Event.Decode (Except.ok r)] ++ p verbose "^" ++ [sendCall sendandclose r none] ++
      sentRounds verbose sendandclose rs

/-- The effects of the iterations that receive and encode the results `us`,
every encode returning `nil`. -/
def recvRounds {T U : Type} (verbose : Bool) : List U → List (Event T U)
  | [] => []
  | u :: us =>
    [Event.Recv (Except.ok u)] ++ p verbose "v" ++ [Event.Encode u none] ++ recvRounds verbose us

/-! ## Sample collaborators -/

/-- A decoder that yields 1, 2, 3 and then reports `io.EOF`. -/
def threeRecords : Decoder Nat := fun n => if n < 3 then Except.ok (n + 1) else Except.error Err.EOF

/-- An encoder that never fails. -/
def encodeOk : Encoder Nat := fun _ _ => none

/-- A duplex with `Send` and `Close` only, both returning nil. -/
def sender : Duplex Nat Nat :=
  { Send := some (fun _ _ => none), SendAndClose := none, Recv := none,
    Close := some (fun _ => none) }

/-- A duplex with `Send` and `Close` only, whose second `Send` returns `err`. -/
def senderFailingSecond (err : Err) : Duplex Nat Nat :=
  { Send := some (fun n _ => if n = 1 then some err else none), SendAndClose := none,
    Recv := none, Close := some (fun _ => none) }

/-- A decoder that yields 1, 2 and then fails with an error that is not `io.EOF`. -/
def twoRecordsThenGarbage : Decoder Nat :=
  fun n => if n < 2 then Except.ok (n + 1) else Except.error (Err.other 0)

/-- A duplex with `Send` and `Close` only: `Send` returns nil, `Close` returns
`io.EOF`. -/
def senderClosingWithEOF : Duplex Nat Nat :=
  { Send := some (fun _ _ => none), SendAndClose := none, Recv := none,
    Close := some (fun _ => some Err.EOF) }

/-- A duplex with `Recv` only, which yields 1, 2, 3 and then `io.EOF`. -/
def recver : Duplex Nat Nat :=
  { Send := none, SendAndClose := none,
    Recv := some (fun n => if n < 3 then Except.ok (n + 1) else Except.error Err.EOF),
    Close := none }

/-- A duplex with `Recv` only, which yields 1, 2 and then fails with an error
that is not `io.EOF`. -/
def recverFailing : Duplex Nat Nat :=
  { Send := none, SendAndClose := none,
    Recv := some (fun n => if n < 2 then Except.ok (n + 1) else Except.error (Err.other 9)),
    Close := none }

/-- A duplex with only a `Close` method. -/
def doner : Duplex Nat Nat :=
  { Send := none, SendAndClose := none, Recv := none, Close := some (fun _ => none) }

/-- A duplex with `SendAndClose`, `Recv` and `Close` but no `Send`. -/
def closingSender : Duplex Nat Nat :=
  { Send := none, SendAndClose := some (fun _ _ => none),
    Recv := some (fun n => if n < 3 then Except.ok (n + 1) else Except.error Err.EOF),
    Close := some (fun _ => none) }

/-- A duplex whose first `Send` fails and whose `Recv` yields a result on every
call, without end. -/
def failingSenderEndlessRecver : Duplex Nat Nat :=
  { Send := some (fun _ _ => some (Err.other 5)), SendAndClose := none,
    Recv := some (fun _ => Except.ok 0), Close := some (fun _ => none) }

/-! ## The loops -/

theorem sendLoop_rounds {T U : Type} (verbose : Bool) (dec : Decoder T)
    (send : Nat → T → Option Err) (sendandclose : Bool) (fuel : Nat) :
    ∀ (rs : List T) (n : Nat),
      (∀ k r, rs[k]? = some r → dec (n + k) = Except.ok r ∧ send (n + k) r = none) →
      sendLoop (U := U) verbose dec send sendandclose (rs.length + fuel) n =
        (sentRounds verbose sendandclose rs ++
            (sendLoop verbose dec send sendandclose fuel (n + rs.length)).1,
          (sendLoop (U := U) verbose dec send sendandclose fuel (n + rs.length)).2) := by
  intro rs
  induction rs with
  | nil => intro n _; simp [sentRounds]
  | cons r rs ih =>
    intro n h
    have h0 := h 0 r (by simp)
    have hrest : ∀ k r', rs[k]? = some r' →
        dec (n + 1 + k) = Except.ok r' ∧ send (n + 1 + k) r' = none := by
      intro k r' hk
      have := h (k + 1) r' (by simpa using hk)
      rwa [show n + (k + 1) = n + 1 + k by omega] at this
    have hlen : (r :: rs).length + fuel = (rs.length + fuel) + 1 := by
      simp only [List.length_cons]; omega
    have hidx : n + 1 + rs.length = n + (r :: rs).length := by
      simp only [List.length_cons]; omega
    rw [hlen, sendLoop]
    simp only [Nat.add_zero] at h0
    rw [h0.1]
    simp only [h0.2, ih (n + 1) hrest, hidx, sentRounds, List.append_assoc]

theorem recvLoop_rounds {T U : Type} (verbose : Bool) (enc : Encoder U)
    (recv : Nat → Except Err U) (fuel : Nat) :
    ∀ (us : List U) (n : Nat),
      (∀ k u, us[k]? = some u → recv (n + k) = Except.ok u ∧ enc (n + k) u = none) →
      recvLoop (T := T) verbose enc recv (us.length + fuel) n =
        (recvRounds verbose us ++ (recvLoop verbose enc recv fuel (n + us.length)).1,
          (recvLoop (T := T) verbose enc recv fuel (n + us.length)).2) := by
  intro us
  induction us with
  | nil => intro n _; simp [recvRounds]
  | cons u us ih =>
    intro n h
    have h0 := h 0 u (by simp)
    have hrest : ∀ k u', us[k]? = some u' →
        recv (n + 1 + k) = Except.ok u' ∧ enc (n + 1 + k) u' = none := by
      intro k u' hk
      have := h (k + 1) u' (by simpa using hk)
      rwa [show n + (k + 1) = n + 1 + k by omega] at this
    have hlen : (u :: us).length + fuel = (us.length + fuel) + 1 := by
      simp only [List.length_cons]; omega
    have hidx : n + 1 + us.length = n + (u :: us).length := by
      simp only [List.length_cons]; omega
    rw [hlen, recvLoop]
    simp only [Nat.add_zero] at h0
    rw [h0.1]
    simp only [h0.2, ih (n + 1) hrest, hidx, recvRounds, List.append_assoc]

/-! ## Reading a trace -/

theorem stderrChars_append {T U : Type} (xs ys : List (Event T U)) :
    stderrChars (xs ++ ys) = stderrChars xs ++ stderrChars ys := by
  induction xs with
  | nil => rfl
  | cons e xs ih => cases e <;> simp [stderrChars, ih]

theorem stderrChars_p {T U : Type} (verbose : Bool) (s : String) :
    stderrChars (p (T := T) (U := U) verbose s) = if verbose then s.data else [] := by
  cases verbose <;> simp [p, stderrChars]

theorem calls_append {T U : Type} (xs ys : List (Event T U)) :
    calls (xs ++ ys) = calls xs ++ calls ys := by
  simp [calls]

theorem calls_p {T U : Type} (verbose : Bool) (s : String) :
    calls (p (T := T) (U := U) verbose s) = [] := by
  cases verbose <;> simp [p, calls, Event.isCall]

theorem stdout_append {T U : Type} (xs ys : List (Event T U)) :
    stdout (xs ++ ys) = stdout xs ++ stdout ys := by
  simp [stdout]

theorem stdout_p {T U : Type} (verbose : Bool) (s : String) :
    stdout (p (T := T) (U := U) verbose s) = [] := by
  cases verbose <;> simp [p, stdout, Event.written]

theorem calls_sendCall {T U : Type} (sendandclose : Bool) (pay : T) (out : Option Err) :
    calls [sendCall (U := U) sendandclose pay out] = [sendCall sendandclose pay out] := by
  cases sendandclose <;> simp [calls, sendCall, Event.isCall]

theorem stderrChars_sendCall {T U : Type} (sendandclose : Bool) (pay : T) (out : Option Err) :
    stderrChars [sendCall (U := U) sendandclose pay out] = [] := by
  cases sendandclose <;> simp [stderrChars, sendCall]

theorem stdout_sendCall {T U : Type} (sendandclose : Bool) (pay : T) (out : Option Err) :
    stdout [sendCall (U := U) sendandclose pay out] = [] := by
  cases sendandclose <;> simp [stdout, sendCall, Event.written]

theorem calls_sentRounds {T U : Type} (verbose sendandclose : Bool) (rs : List T) :
    calls (sentRounds (U := U) verbose sendandclose rs) =
      rs.map (fun r => sendCall sendandclose r none) := by
  induction rs with
  | nil => rfl
  | cons r rs ih =>
    simp only [sentRounds, calls_append, calls_p, calls_sendCall, ih, List.map_cons]
    simp [calls, Event.isCall]

theorem stderrChars_sentRounds {T U : Type} (verbose sendandclose : Bool) (rs : List T) :
    stderrChars (sentRounds (U := U) verbose sendandclose rs) =
      if verbose then List.replicate rs.length '^' else [] := by
  induction rs with
  | nil => cases verbose <;> rfl
  | cons r rs ih =>
    simp only [sentRounds, stderrChars_append, stderrChars_p, stderrChars_sendCall, ih]
    cases verbose <;> simp [stderrChars, List.replicate_succ]

theorem stdout_sentRounds {T U : Type} (verbose sendandclose : Bool) (rs : List T) :
    stdout (sentRounds (U := U) verbose sendandclose rs) = [] := by
  induction rs with
  | nil => rfl
  | cons r rs ih =>
    simp only [sentRounds, stdout_append, stdout_p, stdout_sendCall, ih]
    simp [stdout, Event.written]

theorem calls_recvRounds {T U : Type} (verbose : Bool) (us : List U) :
    calls (recvRounds (T := T) verbose us) = us.map (fun u => Event.Recv (Except.ok u)) := by
  induction us with
  | nil => rfl
  | cons u us ih =>
    simp only [recvRounds, calls_append, calls_p, ih, List.map_cons]
    simp [calls, Event.isCall]

theorem stderrChars_recvRounds {T U : Type} (verbose : Bool) (us : List U) :
    stderrChars (recvRounds (T := T) verbose us) =
      if verbose then List.replicate us.length 'v' else [] := by
  induction us with
  | nil => cases verbose <;> rfl
  | cons u us ih =>
    simp only [recvRounds, stderrChars_append, stderrChars_p, ih]
    cases verbose <;> simp [stderrChars, List.replicate_succ]

theorem stdout_recvRounds {T U : Type} (verbose : Bool) (us : List U) :
    stdout (recvRounds (T := T) verbose us) = us := by
  induction us with
  | nil => rfl
  | cons u us ih =>
    simp only [recvRounds, stdout_append, stdout_p, ih]
    simp [stdout, Event.written]

/-! ## The group -/

theorem interleave_nil_left {α : Type} (sched : List Bool) (ys : List α) :
    interleave sched [] ys = ys := by
  simp [interleave]

theorem interleave_nil_right {α : Type} (sched : List Bool) (xs : List α) :
    interleave sched xs [] = xs := by
  cases xs <;> simp [interleave]

theorem effects_acts {T U : Type} (g : Goroutine T U) : effects g.acts = g.events := by
  have hmap : ∀ evs : List (Event T U), List.filterMap Act.event (evs.map Act.ev) = evs := by
    intro evs
    induction evs with
    | nil => rfl
    | cons e evs ih => simp [Act.event, ih]
  unfold effects Goroutine.acts
  rw [List.filterMap_append, hmap]
  cases g.returned <;> simp [Act.event]

theorem egErr_acts {T U : Type} (g : Goroutine T U) : egErr g.acts = g.returned.join := by
  unfold Goroutine.acts
  induction g.events with
  | nil =>
    cases h : g.returned with
    | none => simp [egErr]
    | some r => cases r <;> simp [egErr]
  | cons e evs ih => simpa [egErr] using ih

theorem reflectJSONL_send_alone {T U : Type} (dec : Decoder T) (enc : Encoder U)
    (stm : Duplex T U) (verbose : Bool) (sched : List Bool) (fuel : Nat) (g : Goroutine T U)
    (r : Option Err) (hRecv : stm.Recv = none) (hg : sendSide verbose dec stm fuel = some g)
    (hr : g.returned = some r) :
    reflectJSONL dec enc (some stm) verbose sched fuel =
      Except.ok { trace := g.events ++ p verbose "\n", result := some r } := by
  simp [reflectJSONL, recvSide, hRecv, hg, actsOf, finished, hr, interleave_nil_right,
    effects_acts, egErr_acts]

theorem reflectJSONL_recv_alone {T U : Type} (dec : Decoder T) (enc : Encoder U)
    (stm : Duplex T U) (verbose : Bool) (sched : List Bool) (fuel : Nat) (g : Goroutine T U)
    (r : Option Err) (hSend : sendSide verbose dec stm fuel = none)
    (hg : recvSide verbose enc stm fuel = some g) (hr : g.returned = some r) :
    reflectJSONL dec enc (some stm) verbose sched fuel =
      Except.ok { trace := g.events ++ p verbose "\n", result := some r } := by
  simp [reflectJSONL, hSend, hg, actsOf, finished, hr, interleave_nil_left,
    effects_acts, egErr_acts]

theorem mem_interleave {α : Type} (a : α) (sched : List Bool) (xs ys : List α) :
    a ∈ interleave sched xs ys ↔ a ∈ xs ∨ a ∈ ys := by
  induction sched, xs, ys using interleave.induct with
  | case1 => simp [interleave]
  | case2 => simp [interleave]
  | case3 => simp [interleave, or_assoc]
  | case4 sched x xs y ys ih => simp [interleave, ih, or_assoc]
  | case5 sched x xs y ys ih =>
    simp only [interleave, List.mem_cons, ih]
    tauto

theorem filterMap_interleave_left {α β : Type} (f : α → Option β) (sched : List Bool)
    (xs ys : List α) (h : ∀ y ∈ ys, f y = none) :
    (interleave sched xs ys).filterMap f = xs.filterMap f := by
  have hnil : ∀ zs : List α, (∀ z ∈ zs, f z = none) → zs.filterMap f = [] := by
    intro zs hz
    exact List.filterMap_eq_nil_iff.mpr hz
  induction sched, xs, ys using interleave.induct with
  | case1 sched ys => simp [interleave, hnil ys h]
  | case2 => simp [interleave]
  | case3 x xs y ys =>
    simp only [interleave]
    rw [List.filterMap_append, hnil (y :: ys) h, List.append_nil]
  | case4 sched x xs y ys ih =>
    simp only [interleave, List.filterMap_cons, ih h]
  | case5 sched x xs y ys ih =>
    have hy : f y = none := h y (List.mem_cons_self _ _)
    have hys : ∀ z ∈ ys, f z = none := fun z hz => h z (List.mem_cons_of_mem _ hz)
    simp only [interleave, List.filterMap_cons, hy, ih hys]

theorem egErr_interleave_none {T U : Type} (sched : List Bool) (xs ys : List (Act T U)) :
    egErr (interleave sched xs ys) = none ↔ egErr xs = none ∧ egErr ys = none := by
  have happ : ∀ as bs : List (Act T U),
      egErr (as ++ bs) = none ↔ egErr as = none ∧ egErr bs = none := by
    intro as bs
    induction as with
    | nil => simp [egErr]
    | cons a as ih =>
      cases a with
      | ev e => simpa [egErr] using ih
      | ret r => cases r <;> simp [egErr, ih]
  induction sched, xs, ys using interleave.induct with
  | case1 => simp [interleave, egErr]
  | case2 => simp [interleave, egErr]
  | case3 x xs y ys =>
    simp only [interleave]
    rw [happ]
  | case4 sched x xs y ys ih =>
    cases x with
    | ev e => simpa [interleave, egErr] using ih
    | ret r => cases r <;> simp [interleave, egErr, ih]
  | case5 sched x xs y ys ih =>
    cases y with
    | ev e => simpa [interleave, egErr] using ih
    | ret r => cases r <;> simp [interleave, egErr, ih]

theorem egErr_interleave_some {T U : Type} (sched : List Bool) (xs ys : List (Act T U))
    (e : Err) (h : egErr (interleave sched xs ys) = some e) :
    egErr xs = some e ∨ egErr ys = some e := by
  have happ : ∀ as bs : List (Act T U),
      egErr (as ++ bs) = some e → egErr as = some e ∨ egErr bs = some e := by
    intro as bs
    induction as with
    | nil => intro h; exact Or.inr (by simpa using h)
    | cons a as ih =>
      cases a with
      | ev e => simpa [egErr] using ih
      | ret r =>
        cases r with
        | none => simpa [egErr] using ih
        | some e2 => intro h; exact Or.inl (by simpa [egErr] using h)
  induction sched, xs, ys using interleave.induct with
  | case1 sched ys => exact Or.inr (by simpa [interleave] using h)
  | case2 sched x xs => exact Or.inl (by simpa [interleave] using h)
  | case3 x xs y ys =>
    simp only [interleave] at h
    exact happ _ _ h
  | case4 sched x xs y ys ih =>
    cases x with
    | ev e => simpa [interleave, egErr] using ih (by simpa [interleave, egErr] using h)
    | ret r =>
      cases r with
      | none => simpa [interleave, egErr] using ih (by simpa [interleave, egErr] using h)
      | some e2 => exact Or.inl (by simpa [interleave, egErr] using h)
  | case5 sched x xs y ys ih =>
    cases y with
    | ev e => simpa [interleave, egErr] using ih (by simpa [interleave, egErr] using h)
    | ret r =>
      cases r with
      | none => simpa [interleave, egErr] using ih (by simpa [interleave, egErr] using h)
      | some e2 => exact Or.inr (by simpa [interleave, egErr] using h)

/-! ## The first goroutine -/

theorem sendSide_of_Send {T U : Type} (verbose : Bool) (dec : Decoder T) (stm : Duplex T U)
    (fuel : Nat) (send : Nat → T → Option Err) (h : stm.Send = some send) :
    sendSide verbose dec stm fuel = some (sendGoroutine verbose dec stm send false fuel) := by
  simp [sendSide, h]

theorem sendSide_of_SendAndClose {T U : Type} (verbose : Bool) (dec : Decoder T)
    (stm : Duplex T U) (fuel : Nat) (send : Nat → T → Option Err) (h : stm.Send = none)
    (h2 : stm.SendAndClose = some send) :
    sendSide verbose dec stm fuel = some (sendGoroutine verbose dec stm send true fuel) := by
  simp [sendSide, h, h2]

theorem sendGoroutine_close {T U : Type} (verbose : Bool) (dec : Decoder T) (stm : Duplex T U)
    (send : Nat → T → Option Err) (fuel : Nat) (evs : List (Event T U))
    (close : Nat → Option Err) (hClose : stm.Close = some close)
    (hloop : sendLoop verbose dec send false fuel 0 = (evs, Flow.brk)) :
    sendGoroutine verbose dec stm send false fuel =
      { events := evs ++ [Event.Close (close 0)], returned := some (close 0) } := by
  unfold sendGoroutine
  rw [hloop]
  simp only [hClose]
  cases close 0 <;> simp

theorem sendGoroutine_ret {T U : Type} (verbose : Bool) (dec : Decoder T) (stm : Duplex T U)
    (send : Nat → T → Option Err) (sendandclose : Bool) (fuel : Nat) (evs : List (Event T U))
    (err : Option Err)
    (hloop : sendLoop verbose dec send sendandclose fuel 0 = (evs, Flow.ret err)) :
    sendGoroutine verbose dec stm send sendandclose fuel =
      { events := evs, returned := some err } := by
  unfold sendGoroutine
  rw [hloop]

/-- The loop after the payloads `rs` were decoded and sent without error, when
the next `Decode` returns `io.EOF`. -/
theorem sendLoop_input_end {T U : Type} (verbose : Bool) (dec : Decoder T)
    (send : Nat → T → Option Err) (sendandclose : Bool) (rs : List T) (fuel : Nat)
    (hdec : ∀ k (hk : k < rs.length), dec k = Except.ok rs[k])
    (hok : ∀ k (hk : k < rs.length), send k rs[k] = none)
    (heof : dec rs.length = Except.error Err.EOF) (hfuel : rs.length < fuel) :
    sendLoop (U := U) verbose dec send sendandclose fuel 0 =
      (sentRounds verbose sendandclose rs ++
        ([Event.Decode (Except.error Err.EOF)] ++ p verbose "$"), Flow.brk) := by
  obtain ⟨f, rfl⟩ : ∃ f, fuel = rs.length + (f + 1) := ⟨fuel - rs.length - 1, by omega⟩
  rw [sendLoop_rounds verbose dec send sendandclose (f + 1) rs 0]
  · simp [sendLoop, heof]
  · intro k r hk
    obtain ⟨hlt, rfl⟩ := List.getElem?_eq_some_iff.mp hk
    simpa using ⟨hdec k hlt, hok k hlt⟩

/-- The loop when the call of `send` for the record at position `j` is the first
to return an error. -/
theorem sendLoop_send_fails {T U : Type} (verbose : Bool) (dec : Decoder T)
    (send : Nat → T → Option Err) (sendandclose : Bool) (rs : List T) (j fuel : Nat) (e : Err)
    (hj : j < rs.length)
    (hdec : ∀ k (hk : k < rs.length), dec k = Except.ok rs[k])
    (hok : ∀ k (hk : k < rs.length), k < j → send k rs[k] = none)
    (he : send j rs[j] = some e) (hfuel : j < fuel) :
    sendLoop (U := U) verbose dec send sendandclose fuel 0 =
      (sentRounds verbose sendandclose (rs.take j) ++
        ([Event.Decode (Except.ok rs[j])] ++ p verbose "^" ++
          [sendCall sendandclose rs[j] (some e)] ++
          (if e = Err.EOF then p verbose "#" else p verbose "!")),
        if e = Err.EOF then Flow.brk else Flow.ret (some (Err.wrapped "send: " e))) := by
  obtain ⟨f, rfl⟩ : ∃ f, fuel = j + (f + 1) := ⟨fuel - j - 1, by omega⟩
  have hlen : (rs.take j).length = j := by
    rw [List.length_take]; omega
  have hrounds := sendLoop_rounds (U := U) verbose dec send sendandclose (f + 1) (rs.take j) 0
    (by
      intro k r hk
      obtain ⟨hlt, rfl⟩ := List.getElem?_eq_some_iff.mp hk
      rw [hlen] at hlt
      have hkl : k < rs.length := by omega
      simp only [List.getElem_take, Nat.zero_add]
      exact ⟨hdec k hkl, hok k hkl hlt⟩)
  rw [hlen, Nat.zero_add] at hrounds
  rw [hrounds, sendLoop, hdec j hj]
  simp only [he]
  by_cases h : e = Err.EOF <;> simp [h]

/-- The loop after the payloads `rs` were decoded and sent without error, when
the next `Decode` returns an error other than `io.EOF`. -/
theorem sendLoop_bad_input {T U : Type} (verbose : Bool) (dec : Decoder T)
    (send : Nat → T → Option Err) (sendandclose : Bool) (rs : List T) (fuel : Nat) (e : Err)
    (hdec : ∀ k (hk : k < rs.length), dec k = Except.ok rs[k])
    (hok : ∀ k (hk : k < rs.length), send k rs[k] = none)
    (hbad : dec rs.length = Except.error e) (he : e ≠ Err.EOF) (hfuel : rs.length < fuel) :
    sendLoop (U := U) verbose dec send sendandclose fuel 0 =
      (sentRounds verbose sendandclose rs ++
        ([Event.Decode (Except.error e)] ++ p verbose "?"),
        Flow.ret (some (Err.wrapped "input: " e))) := by
  obtain ⟨f, rfl⟩ : ∃ f, fuel = rs.length + (f + 1) := ⟨fuel - rs.length - 1, by omega⟩
  rw [sendLoop_rounds verbose dec send sendandclose (f + 1) rs 0]
  · simp [sendLoop, hbad, he]
  · intro k r hk
    obtain ⟨hlt, rfl⟩ := List.getElem?_eq_some_iff.mp hk
    simpa using ⟨hdec k hlt, hok k hlt⟩

theorem sendSide_of_bound {T U : Type} (verbose : Bool) (dec : Decoder T) (stm : Duplex T U)
    (fuel : Nat) (send : Nat → T → Option Err)
    (h : stm.Send = some send ∨ (stm.Send = none ∧ stm.SendAndClose = some send)) :
    sendSide verbose dec stm fuel =
      some (sendGoroutine verbose dec stm send stm.Send.isNone fuel) := by
  rcases h with h | ⟨h, h2⟩
  · simp [sendSide, h]
  · simp [sendSide, h, h2]

/-! ## The second goroutine -/

/-- The loop after the results `us` were received and encoded without error,
when the next `Recv` returns the error `e`. -/
theorem recvLoop_recv_fails {T U : Type} (verbose : Bool) (enc : Encoder U)
    (recv : Nat → Except Err U) (us : List U) (fuel : Nat) (e : Err)
    (hrecv : ∀ k (hk : k < us.length), recv k = Except.ok us[k])
    (henc : ∀ k (hk : k < us.length), enc k us[k] = none)
    (he : recv us.length = Except.error e) (hfuel : us.length < fuel) :
    recvLoop (T := T) verbose enc recv fuel 0 =
      (recvRounds verbose us ++
        ([Event.Recv (Except.error e)] ++ (if e = Err.EOF then p verbose "#" else [])),
        Flow.ret (if e = Err.EOF then none else some e)) := by
  obtain ⟨f, rfl⟩ : ∃ f, fuel = us.length + (f + 1) := ⟨fuel - us.length - 1, by omega⟩
  rw [recvLoop_rounds verbose enc recv (f + 1) us 0]
  · by_cases h : e = Err.EOF <;> simp [recvLoop, he, h]
  · intro k u hk
    obtain ⟨hlt, rfl⟩ := List.getElem?_eq_some_iff.mp hk
    simpa using ⟨hrecv k hlt, henc k hlt⟩

theorem recvGoroutine_ret {T U : Type} (verbose : Bool) (enc : Encoder U)
    (recv : Nat → Except Err U) (fuel : Nat) (evs : List (Event T U)) (err : Option Err)
    (hloop : recvLoop verbose enc recv fuel 0 = (evs, Flow.ret err)) :
    recvGoroutine verbose enc recv fuel = { events := evs, returned := some err } := by
  unfold recvGoroutine
  rw [hloop]

/-! ## Sessions with two goroutines -/

theorem mem_effects {T U : Type} (e : Event T U) (acts : List (Act T U)) :
    e ∈ effects acts ↔ Act.ev e ∈ acts := by
  unfold effects
  rw [List.mem_filterMap]
  constructor
  · rintro ⟨a, ha, hae⟩
    cases a with
    | ev e2 =>
      simp only [Act.event, Option.some.injEq] at hae
      rwa [hae] at ha
    | ret r => simp [Act.event] at hae
  · intro h
    exact ⟨Act.ev e, h, rfl⟩

theorem mem_actsOf {T U : Type} (e : Event T U) (og : Option (Goroutine T U))
    (h : Act.ev e ∈ actsOf og) : ∃ g, og = some g ∧ e ∈ g.events := by
  cases og with
  | none => simp [actsOf] at h
  | some g =>
    refine ⟨g, rfl, ?_⟩
    rw [← effects_acts g, mem_effects]
    exact h

theorem recvLoop_events {T U : Type} (verbose : Bool) (enc : Encoder U)
    (recv : Nat → Except Err U) (fuel : Nat) :
    ∀ n, (recvLoop (T := T) verbose enc recv fuel n).1.all Event.ofRecvLoop = true := by
  induction fuel with
  | zero => intro n; simp [recvLoop]
  | succ fuel ih =>
    intro n
    have hrest := ih (n + 1)
    simp only [recvLoop]
    split
    · split <;> cases verbose <;> simp [p, Event.ofRecvLoop]
    · split
      · cases verbose <;> simp [p, Event.ofRecvLoop]
      · cases verbose <;> simpa [p, Event.ofRecvLoop] using hrest

theorem recvSide_events {T U : Type} (verbose : Bool) (enc : Encoder U) (stm : Duplex T U)
    (fuel : Nat) (g : Goroutine T U) (hg : recvSide verbose enc stm fuel = some g) :
    ∀ e ∈ g.events, e.ofRecvLoop = true := by
  unfold recvSide at hg
  cases hR : stm.Recv with
  | none => simp [hR] at hg
  | some recv =>
    simp only [hR, Option.some.injEq] at hg
    subst hg
    have hloop := recvLoop_events (T := T) verbose enc recv fuel 0
    rw [List.all_eq_true] at hloop
    unfold recvGoroutine
    generalize recvLoop verbose enc recv fuel 0 = res at hloop
    obtain ⟨evs, fl⟩ := res
    cases fl <;> exact hloop

theorem sendLoop_sendAndClose_events {T U : Type} (verbose : Bool) (dec : Decoder T)
    (send : Nat → T → Option Err) (fuel : Nat) :
    ∀ n, (sendLoop (U := U) verbose dec send true fuel n).1.all Event.ofSendAndCloseLoop = true := by
  induction fuel with
  | zero => intro n; simp [sendLoop]
  | succ fuel ih =>
    intro n
    have hrest := ih (n + 1)
    simp only [sendLoop]
    split
    · split <;> cases verbose <;> simp [p, Event.ofSendAndCloseLoop]
    · split
      · split <;> cases verbose <;> simp [p, sendCall, Event.ofSendAndCloseLoop]
      · cases verbose <;> simpa [p, sendCall, Event.ofSendAndCloseLoop] using hrest

theorem sendLoop_sendAndClose_passes {T U : Type} (verbose : Bool) (dec : Decoder T)
    (send : Nat → T → Option Err) (fuel : Nat) :
    ∀ n, passedToSendAndClose (sendLoop (U := U) verbose dec send true fuel n).1 =
        decoded (sendLoop (U := U) verbose dec send true fuel n).1 := by
  unfold passedToSendAndClose decoded
  induction fuel with
  | zero => intro n; simp [sendLoop]
  | succ fuel ih =>
    intro n
    have hrest := ih (n + 1)
    simp only [sendLoop]
    split
    · split <;> cases verbose <;> simp [p, Event.closingPayload, Event.decodedPayload]
    · split
      · split <;> cases verbose <;>
          simp [p, sendCall, Event.closingPayload, Event.decodedPayload]
      · cases verbose <;>
          simpa [p, sendCall, Event.closingPayload, Event.decodedPayload] using hrest

theorem sendGoroutine_sendAndClose_events {T U : Type} (verbose : Bool) (dec : Decoder T)
    (stm : Duplex T U) (send : Nat → T → Option Err) (fuel : Nat) :
    (sendGoroutine verbose dec stm send true fuel).events =
      (sendLoop verbose dec send true fuel 0).1 := by
  unfold sendGoroutine
  generalize sendLoop verbose dec send true fuel 0 = res
  obtain ⟨evs, fl⟩ := res
  cases fl <;> simp

/-- The trace of a session is the interleaved effects, followed by the final
newline once `eg.Wait()` has returned. -/
theorem reflectJSONL_trace {T U : Type} (dec : Decoder T) (enc : Encoder U) (stm : Duplex T U)
    (verbose : Bool) (sched : List Bool) (fuel : Nat) :
    ∃ s tail, reflectJSONL dec enc (some stm) verbose sched fuel = Except.ok s ∧
      s.trace =
        effects (interleave sched (actsOf (sendSide verbose dec stm fuel))
          (actsOf (recvSide verbose enc stm fuel))) ++ tail ∧
      (tail = [] ∨ tail = [Event.WriteString "\n"]) := by
  by_cases h : (finished (sendSide verbose dec stm fuel) &&
      finished (recvSide verbose enc stm fuel)) = true
  · refine ⟨Session.mk (effects (interleave sched (actsOf (sendSide verbose dec stm fuel))
      (actsOf (recvSide verbose enc stm fuel))) ++ p verbose "\n") (some (egErr (interleave sched
      (actsOf (sendSide verbose dec stm fuel)) (actsOf (recvSide verbose enc stm fuel))))),
      p verbose "\n", ?_, rfl, ?_⟩
    · simp only [reflectJSONL, h, if_true]
    · cases verbose <;> simp [p]
  · refine ⟨Session.mk (effects (interleave sched (actsOf (sendSide verbose dec stm fuel))
      (actsOf (recvSide verbose enc stm fuel)))) none, [], ?_, (List.append_nil _).symm,
      Or.inl rfl⟩
    simp only [reflectJSONL, h]
    rfl

/-- Every effect of a session is an effect of one of its goroutines, or the
final newline. -/
theorem mem_trace {T U : Type} (dec : Decoder T) (enc : Encoder U) (stm : Duplex T U)
    (verbose : Bool) (sched : List Bool) (fuel : Nat) (s : Session T U)
    (hs : reflectJSONL dec enc (some stm) verbose sched fuel = Except.ok s) (e : Event T U)
    (he : e ∈ s.trace) :
    (∃ g, sendSide verbose dec stm fuel = some g ∧ e ∈ g.events) ∨
      (∃ g, recvSide verbose enc stm fuel = some g ∧ e ∈ g.events) ∨
      e = Event.WriteString "\n" := by
  obtain ⟨s2, tail, hs2, htrace, htail⟩ := reflectJSONL_trace dec enc stm verbose sched fuel
  rw [hs] at hs2
  obtain rfl : s = s2 := Except.ok.inj hs2
  rw [htrace, List.mem_append, mem_effects, mem_interleave] at he
  rcases he with (he | he) | he
  · exact Or.inl (mem_actsOf e _ he)
  · exact Or.inr (Or.inl (mem_actsOf e _ he))
  · rcases htail with rfl | rfl
    · simp at he
    · exact Or.inr (Or.inr (by simpa using he))

/-- A reading of the trace that ignores what the second goroutine does sees the
first goroutine alone. -/
theorem filterMap_trace {T U β : Type} (f : Event T U → Option β)
    (hf : ∀ e, e.ofRecvLoop = true → f e = none) (dec : Decoder T) (enc : Encoder U)
    (stm : Duplex T U) (verbose : Bool) (sched : List Bool) (fuel : Nat) (s : Session T U)
    (hs : reflectJSONL dec enc (some stm) verbose sched fuel = Except.ok s)
    (g : Goroutine T U) (hg : sendSide verbose dec stm fuel = some g) :
    s.trace.filterMap f = g.events.filterMap f := by
  obtain ⟨s2, tail, hs2, htrace, htail⟩ := reflectJSONL_trace dec enc stm verbose sched fuel
  rw [hs] at hs2
  obtain rfl : s = s2 := Except.ok.inj hs2
  have htl : tail.filterMap f = [] := by
    rcases htail with rfl | rfl
    · rfl
    · simp [hf (Event.WriteString "\n") rfl]
  have hright : ∀ a ∈ actsOf (recvSide verbose enc stm fuel), (Act.event a).bind f = none := by
    intro a ha
    cases a with
    | ret r => rfl
    | ev e =>
      obtain ⟨g2, hg2, he⟩ := mem_actsOf e _ ha
      exact hf e (recvSide_events verbose enc stm fuel g2 hg2 e he)
  rw [htrace, List.filterMap_append, htl, List.append_nil]
  unfold effects
  rw [List.filterMap_filterMap, filterMap_interleave_left _ _ _ _ hright,
    ← List.filterMap_filterMap, hg]
  have := effects_acts g
  unfold effects at this
  rw [actsOf, this]

theorem egErr_actsOf_none {T U : Type} (og : Option (Goroutine T U))
    (hfin : finished og = true) :
    egErr (actsOf og) = none ↔ ∀ g, og = some g → g.returned = some none := by
  cases og with
  | none => simp [actsOf, egErr]
  | some g =>
    simp only [actsOf, egErr_acts, Option.some.injEq, forall_eq']
    simp only [finished] at hfin
    cases hr : g.returned with
    | none => simp [hr] at hfin
    | some r => cases r <;> simp

theorem egErr_actsOf_some {T U : Type} (og : Option (Goroutine T U)) (e : Err)
    (h : egErr (actsOf og) = some e) : ∃ g, og = some g ∧ g.returned = some (some e) := by
  cases og with
  | none => simp [actsOf, egErr] at h
  | some g =>
    refine ⟨g, rfl, ?_⟩
    simp only [actsOf, egErr_acts] at h
    cases hr : g.returned with
    | none => simp [hr] at h
    | some r =>
      cases r with
      | none => simp [hr] at h
      | some e2 =>
        have h2 : e2 = e := by simpa [hr, Option.join] using h
        rw [h2]

theorem finished_iff {T U : Type} (og : Option (Goroutine T U)) :
    finished og = true ↔ ∀ g, og = some g → g.returned ≠ none := by
  cases og with
  | none => simp [finished]
  | some g =>
    simp only [finished, Option.some.injEq, forall_eq', ne_eq]
    cases g.returned <;> simp

/-- The value of `eg.Wait()`: there is none while a started goroutine is still
running; afterwards it is the first non-nil error returned. -/
theorem reflectJSONL_result {T U : Type} (dec : Decoder T) (enc : Encoder U) (stm : Duplex T U)
    (verbose : Bool) (sched : List Bool) (fuel : Nat) :
    ∃ s, reflectJSONL dec enc (some stm) verbose sched fuel = Except.ok s ∧
      s.result =
        if (finished (sendSide verbose dec stm fuel) &&
            finished (recvSide verbose enc stm fuel)) = true then
          some (egErr (interleave sched (actsOf (sendSide verbose dec stm fuel))
            (actsOf (recvSide verbose enc stm fuel))))
        else none := by
  by_cases h : (finished (sendSide verbose dec stm fuel) &&
      finished (recvSide verbose enc stm fuel)) = true
  · refine ⟨Session.mk (effects (interleave sched (actsOf (sendSide verbose dec stm fuel))
      (actsOf (recvSide verbose enc stm fuel))) ++ p verbose "\n") (some (egErr (interleave sched
      (actsOf (sendSide verbose dec stm fuel)) (actsOf (recvSide verbose enc stm fuel))))),
      ?_, ?_⟩
    · simp only [reflectJSONL, h, if_true]
    · simp only [h, if_true]
  · refine ⟨Session.mk (effects (interleave sched (actsOf (sendSide verbose dec stm fuel))
      (actsOf (recvSide verbose enc stm fuel)))) none, ?_, ?_⟩
    · simp only [reflectJSONL, h]
      rfl
    · simp only [h]
      rfl

/-- A `Recv` that yields a result on every call, each encoded without error,
keeps the second loop running whatever the fuel. -/
theorem recvLoop_endless {T U : Type} (verbose : Bool) (enc : Encoder U)
    (recv : Nat → Except Err U) (hrecv : ∀ n, ∃ u, recv n = Except.ok u ∧ enc n u = none)
    (fuel : Nat) : ∀ n, (recvLoop (T := T) verbose enc recv fuel n).2 = Flow.spin := by
  induction fuel with
  | zero => intro n; rfl
  | succ fuel ih =>
    intro n
    obtain ⟨u, hu, he⟩ := hrecv n
    simp only [recvLoop, hu, he]
    exact ih (n + 1)

/-! ## The claims -/

/-- C1: when the input decodes to the records `rs` and then ends, and the duplex
has `Send` and `Close` but no `Recv`, with `Send` returning nil on every call,
`reflectJSONL` returns; it calls `Send` once per record, in order, then `Close`
once, and nothing else on the duplex; it writes nothing to the output sink; and
in verbose mode standard error receives one `^` per record, then `$`, then the
newline. -/
theorem send_all_then_close {T U : Type} (dec : Decoder T) (enc : Encoder U) (stm : Duplex T U)
    (send : Nat → T → Option Err) (close : Nat → Option Err) (rs : List T) (verbose : Bool)
    (sched : List Bool) (fuel : Nat)
    (hdec : ∀ k (hk : k < rs.length), dec k = Except.ok rs[k])
    (heof : dec rs.length = Except.error Err.EOF)
    (hSend : stm.Send = some send) (hClose : stm.Close = some close) (hRecv : stm.Recv = none)
    (hok : ∀ n pay, send n pay = none) (hfuel : rs.length < fuel) :
    ∃ s, reflectJSONL dec enc (some stm) verbose sched fuel = Except.ok s ∧
      s.result = some (close 0) ∧
      calls s.trace = rs.map (fun r => Event.Send r none) ++ [Event.Close (close 0)] ∧
      stdout s.trace = [] ∧
      stderr s.trace =
        if verbose then String.mk (List.replicate rs.length '^' ++ ['$', '\n']) else "" := by
  have hloop := sendLoop_input_end (U := U) verbose dec send false rs fuel hdec
    (fun k _ => hok k _) heof hfuel
  have hg := sendGoroutine_close verbose dec stm send fuel _ close hClose hloop
  have hside := sendSide_of_Send verbose dec stm fuel send hSend
  rw [hg] at hside
  refine ⟨_, reflectJSONL_send_alone dec enc stm verbose sched fuel _ (close 0) hRecv hside rfl,
    rfl, ?_, ?_, ?_⟩
  · simp only [calls_append, calls_sentRounds, calls_p]
    simp [calls, Event.isCall, sendCall]
  · simp only [stdout_append, stdout_sentRounds, stdout_p]
    simp [stdout, Event.written]
  · simp only [stderr, stderrChars_append, stderrChars_sentRounds, stderrChars_p]
    cases verbose <;> simp [stderrChars]

/-- C1 at the scenario `send-three` of the test suite. -/
theorem send_all_then_close_witness :
    ∃ s, reflectJSONL threeRecords encodeOk (some sender) true [] 4 = Except.ok s ∧
      s.result = some none ∧
      calls s.trace = [Event.Send 1 none, Event.Send 2 none, Event.Send 3 none, Event.Close none] ∧
      stdout s.trace = [] ∧
      stderr s.trace = "^^^$\n" :=
  send_all_then_close threeRecords encodeOk sender (fun _ _ => none) (fun _ => none) [1, 2, 3]
    true [] 4 (by intro k hk; have hk3 : k < 3 := hk; interval_cases k <;> rfl) rfl rfl rfl rfl (fun _ _ => rfl)
    (by decide)

/-- C2: when the input holds the records `rs`, the duplex has `Send` and `Close`,
and `Send` returns nil on its first `K - 1` calls and `io.EOF` on call `K`
(`1 ≤ K ≤ rs.length`), the first goroutine returns; it has called `Send` exactly
`K` times, with the first `K` records in order, and then `Close` once; standard
error has received `K` times `^` and then `#`; and what it returns is what
`Close` returned, not a send error. -/
theorem send_eof_then_close {T U : Type} (dec : Decoder T) (stm : Duplex T U)
    (send : Nat → T → Option Err) (close : Nat → Option Err) (rs : List T) (K : Nat)
    (verbose : Bool) (fuel : Nat)
    (hdec : ∀ k (hk : k < rs.length), dec k = Except.ok rs[k])
    (hK : 1 ≤ K) (hKN : K ≤ rs.length)
    (hSend : stm.Send = some send) (hClose : stm.Close = some close)
    (hok : ∀ n pay, n + 1 < K → send n pay = none)
    (hend : ∀ pay, send (K - 1) pay = some Err.EOF) (hfuel : K ≤ fuel) :
    ∃ g, sendSide verbose dec stm fuel = some g ∧
      g.returned = some (close 0) ∧
      calls g.events =
        (rs.take (K - 1)).map (fun r => Event.Send r none) ++
          [Event.Send rs[K - 1] (some Err.EOF), Event.Close (close 0)] ∧
      stderr g.events = if verbose then String.mk (List.replicate K '^' ++ ['#']) else "" := by
  have hj : K - 1 < rs.length := by omega
  have hloop := sendLoop_send_fails (U := U) verbose dec send false rs (K - 1) fuel Err.EOF hj
    hdec (fun k _ hk => hok k _ (by omega)) (hend _) (by omega)
  simp only [if_true] at hloop
  have hg := sendGoroutine_close verbose dec stm send fuel _ close hClose hloop
  have hside := sendSide_of_Send verbose dec stm fuel send hSend
  rw [hg] at hside
  refine ⟨_, hside, rfl, ?_, ?_⟩
  · simp only [calls_append, calls_sentRounds, calls_p, calls_sendCall]
    simp [calls, Event.isCall, sendCall]
  · simp only [stderr, stderrChars_append, stderrChars_sentRounds, stderrChars_p,
      stderrChars_sendCall]
    have hlen : (rs.take (K - 1)).length + 1 = K := by
      rw [List.length_take]; omega
    cases verbose
    · simp [stderrChars]
    · simp only [stderrChars, if_true, List.append_nil, List.nil_append]
      rw [← hlen, List.replicate_succ']
      simp

/-- C2 at the scenario `send-two-eof` of the test suite. -/
theorem send_eof_then_close_witness :
    ∃ g, sendSide true threeRecords (senderFailingSecond Err.EOF) 2 = some g ∧
      g.returned = some none ∧
      calls g.events = [Event.Send 1 none, Event.Send 2 (some Err.EOF), Event.Close none] ∧
      stderr g.events = "^^#" :=
  send_eof_then_close (U := Nat) threeRecords (senderFailingSecond Err.EOF)
    (fun n _ => if n = 1 then some Err.EOF else none) (fun _ => none) [1, 2, 3] 2 true 2
    (by intro k hk; have hk3 : k < 3 := hk; interval_cases k <;> rfl) (by decide) (by decide)
    rfl rfl (by intro n _ hn; have h0 : n = 0 := by omega
                subst h0; rfl)
    (fun _ => rfl) (by decide)

/-- C3: when the first `rs.length` calls of `Decode` yield the records `rs`, the
next one fails with an error `e` other than `io.EOF`, and the send method
(`Send`, or `SendAndClose` when there is no `Send`) returns nil on every call,
the first goroutine returns; the only calls it has made on the duplex are one
send per good record, in order (none for the bad record, and no `Close`);
standard error has received one `^` per good record and then `?`; and it
returns an error that wraps `e`. -/
theorem bad_input_aborts {T U : Type} (dec : Decoder T) (stm : Duplex T U)
    (send : Nat → T → Option Err) (rs : List T) (e : Err) (verbose : Bool) (fuel : Nat)
    (hdec : ∀ k (hk : k < rs.length), dec k = Except.ok rs[k])
    (hbad : dec rs.length = Except.error e) (he : e ≠ Err.EOF)
    (hbound : stm.Send = some send ∨ (stm.Send = none ∧ stm.SendAndClose = some send))
    (hok : ∀ n pay, send n pay = none) (hfuel : rs.length < fuel) :
    ∃ g, sendSide verbose dec stm fuel = some g ∧
      g.returned = some (some (Err.wrapped "input: " e)) ∧
      (Err.wrapped "input: " e).Unwrap = some e ∧
      calls g.events = rs.map (fun r => sendCall stm.Send.isNone r none) ∧
      stderr g.events =
        if verbose then String.mk (List.replicate rs.length '^' ++ ['?']) else "" := by
  have hloop := sendLoop_bad_input (U := U) verbose dec send stm.Send.isNone rs fuel e hdec
    (fun k _ => hok k _) hbad he hfuel
  have hg := sendGoroutine_ret verbose dec stm send stm.Send.isNone fuel _ _ hloop
  have hside := sendSide_of_bound verbose dec stm fuel send hbound
  rw [hg] at hside
  refine ⟨_, hside, rfl, rfl, ?_, ?_⟩
  · simp only [calls_append, calls_sentRounds, calls_p]
    simp [calls, Event.isCall]
  · simp only [stderr, stderrChars_append, stderrChars_sentRounds, stderrChars_p]
    cases verbose <;> simp [stderrChars]

/-- C3 with two good records followed by garbage. -/
theorem bad_input_aborts_witness :
    ∃ g, sendSide true twoRecordsThenGarbage sender 3 = some g ∧
      g.returned = some (some (Err.wrapped "input: " (Err.other 0))) ∧
      (Err.wrapped "input: " (Err.other 0)).Unwrap = some (Err.other 0) ∧
      calls g.events = [Event.Send 1 none, Event.Send 2 none] ∧
      stderr g.events = "^^?" :=
  bad_input_aborts (U := Nat) twoRecordsThenGarbage sender (fun _ _ => none) [1, 2]
    (Err.other 0) true 3
    (by intro k hk; have hk2 : k < 2 := hk; interval_cases k <;> rfl) rfl (by decide)
    (Or.inl rfl) (fun _ _ => rfl) (by decide)

/-- C4: when the duplex has `Recv` but neither `Send` nor `SendAndClose`, and
`Recv` yields the results `us`, each of which is encoded without error, and then
`io.EOF`, `reflectJSONL` returns nil; it has called `Recv` once per result and
once more, and nothing else on the duplex; the output sink has received the
results `us` in order; and in verbose mode standard error receives one `v` per
result, then `#`, then the newline. -/
theorem recv_all_until_eof {T U : Type} (dec : Decoder T) (enc : Encoder U) (stm : Duplex T U)
    (recv : Nat → Except Err U) (us : List U) (verbose : Bool) (sched : List Bool) (fuel : Nat)
    (hSend : stm.Send = none) (hSendAndClose : stm.SendAndClose = none)
    (hRecv : stm.Recv = some recv)
    (hrecv : ∀ k (hk : k < us.length), recv k = Except.ok us[k])
    (henc : ∀ k (hk : k < us.length), enc k us[k] = none)
    (heof : recv us.length = Except.error Err.EOF) (hfuel : us.length < fuel) :
    ∃ s, reflectJSONL dec enc (some stm) verbose sched fuel = Except.ok s ∧
      s.result = some none ∧
      calls s.trace =
        us.map (fun u => Event.Recv (Except.ok u)) ++ [Event.Recv (Except.error Err.EOF)] ∧
      (calls s.trace).length = us.length + 1 ∧
      stdout s.trace = us ∧
      stderr s.trace =
        if verbose then String.mk (List.replicate us.length 'v' ++ ['#', '\n']) else "" := by
  have hloop := recvLoop_recv_fails (T := T) verbose enc recv us fuel Err.EOF hrecv henc heof
    hfuel
  simp only [if_true] at hloop
  have hg := recvGoroutine_ret verbose enc recv fuel _ _ hloop
  have hside : recvSide verbose enc stm fuel = some (recvGoroutine verbose enc recv fuel) := by
    simp [recvSide, hRecv]
  have hnone : sendSide verbose dec stm fuel = none := by
    simp [sendSide, hSend, hSendAndClose]
  rw [hg] at hside
  have hcalls : calls (recvRounds (T := T) verbose us ++
      ([Event.Recv (Except.error Err.EOF)] ++ p verbose "#") ++ p verbose "\n") =
      us.map (fun u => Event.Recv (Except.ok u)) ++ [Event.Recv (Except.error Err.EOF)] := by
    simp only [calls_append, calls_recvRounds, calls_p]
    simp [calls, Event.isCall]
  refine ⟨_, reflectJSONL_recv_alone dec enc stm verbose sched fuel _ none hnone hside rfl,
    rfl, hcalls, ?_, ?_, ?_⟩
  · rw [hcalls]; simp
  · simp only [stdout_append, stdout_recvRounds, stdout_p]
    simp [stdout, Event.written]
  · simp only [stderr, stderrChars_append, stderrChars_recvRounds, stderrChars_p]
    cases verbose <;> simp [stderrChars]

/-- C4 at the scenario `recv-three` of the test suite. -/
theorem recv_all_until_eof_witness :
    ∃ s, reflectJSONL threeRecords encodeOk (some recver) true [] 4 = Except.ok s ∧
      s.result = some none ∧
      calls s.trace =
        [Event.Recv (Except.ok 1), Event.Recv (Except.ok 2), Event.Recv (Except.ok 3),
          Event.Recv (Except.error Err.EOF)] ∧
      (calls s.trace).length = 4 ∧
      stdout s.trace = [1, 2, 3] ∧
      stderr s.trace = "vvv#\n" :=
  recv_all_until_eof threeRecords encodeOk recver
    (fun n => if n < 3 then Except.ok (n + 1) else Except.error Err.EOF) [1, 2, 3] true [] 4
    rfl rfl rfl (by intro k hk; have hk3 : k < 3 := hk; interval_cases k <;> rfl)
    (fun _ _ => rfl) rfl (by decide)

/-- C5, on the code: with `Send` and `Close` present, three records sent without
error and the input then at its end, `Close` returns `io.EOF` and `reflectJSONL`
returns that `io.EOF` as its error; whereas an `io.EOF` returned by `Send` ends
the loop and the session returns nil. -/
theorem close_eof_is_returned_as_error :
    (∃ s, reflectJSONL threeRecords encodeOk (some senderClosingWithEOF) true [] 4 = Except.ok s ∧
      calls s.trace =
        [Event.Send 1 none, Event.Send 2 none, Event.Send 3 none, Event.Close (some Err.EOF)] ∧
      stderr s.trace = "^^^$\n" ∧
      s.result = some (some Err.EOF)) ∧
    (∃ s, reflectJSONL threeRecords encodeOk (some (senderFailingSecond Err.EOF)) true [] 4 =
        Except.ok s ∧
      calls s.trace = [Event.Send 1 none, Event.Send 2 (some Err.EOF), Event.Close none] ∧
      stderr s.trace = "^^#\n" ∧
      s.result = some none) :=
  ⟨⟨_, rfl, rfl, rfl, rfl⟩, ⟨_, rfl, rfl, rfl, rfl⟩⟩

/-- C6: when the input holds the records `rs` and the send method (`Send`, or
`SendAndClose` when there is no `Send`) returns nil on its first `K - 1` calls
and an error `e` other than `io.EOF` on call `K` (`1 ≤ K ≤ rs.length`), the
first goroutine returns; the only calls it has made on the duplex are `K` sends,
with the first `K` records in order (nothing after the failing call, and no
`Close`); standard error has received `K` times `^` and then `!`; and it
returns an error that wraps `e`. -/
theorem send_error_aborts {T U : Type} (dec : Decoder T) (stm : Duplex T U)
    (send : Nat → T → Option Err) (rs : List T) (K : Nat) (e : Err) (verbose : Bool)
    (fuel : Nat)
    (hdec : ∀ k (hk : k < rs.length), dec k = Except.ok rs[k])
    (hK : 1 ≤ K) (hKN : K ≤ rs.length)
    (hbound : stm.Send = some send ∨ (stm.Send = none ∧ stm.SendAndClose = some send))
    (hok : ∀ n pay, n + 1 < K → send n pay = none)
    (hfail : ∀ pay, send (K - 1) pay = some e) (he : e ≠ Err.EOF) (hfuel : K ≤ fuel) :
    ∃ g, sendSide verbose dec stm fuel = some g ∧
      g.returned = some (some (Err.wrapped "send: " e)) ∧
      (Err.wrapped "send: " e).Unwrap = some e ∧
      calls g.events =
        (rs.take (K - 1)).map (fun r => sendCall stm.Send.isNone r none) ++
          [sendCall stm.Send.isNone rs[K - 1] (some e)] ∧
      stderr g.events = if verbose then String.mk (List.replicate K '^' ++ ['!']) else "" := by
  have hj : K - 1 < rs.length := by omega
  have hloop := sendLoop_send_fails (U := U) verbose dec send stm.Send.isNone rs (K - 1) fuel e
    hj hdec (fun k _ hk => hok k _ (by omega)) (hfail _) (by omega)
  simp only [he, if_false] at hloop
  have hg := sendGoroutine_ret verbose dec stm send stm.Send.isNone fuel _ _ hloop
  have hside := sendSide_of_bound verbose dec stm fuel send hbound
  rw [hg] at hside
  refine ⟨_, hside, rfl, rfl, ?_, ?_⟩
  · simp only [calls_append, calls_sentRounds, calls_p, calls_sendCall]
    simp [calls, Event.isCall]
  · simp only [stderr, stderrChars_append, stderrChars_sentRounds, stderrChars_p,
      stderrChars_sendCall]
    have hlen : (rs.take (K - 1)).length + 1 = K := by
      rw [List.length_take]; omega
    cases verbose
    · simp [stderrChars]
    · simp only [stderrChars, if_true, List.append_nil, List.nil_append]
      rw [← hlen, List.replicate_succ']
      simp

/-- C6 with three records and a second `Send` that fails. -/
theorem send_error_aborts_witness :
    ∃ g, sendSide true threeRecords (senderFailingSecond (Err.other 5)) 2 = some g ∧
      g.returned = some (some (Err.wrapped "send: " (Err.other 5))) ∧
      (Err.wrapped "send: " (Err.other 5)).Unwrap = some (Err.other 5) ∧
      calls g.events = [Event.Send 1 none, Event.Send 2 (some (Err.other 5))] ∧
      stderr g.events = "^^!" :=
  send_error_aborts (U := Nat) threeRecords (senderFailingSecond (Err.other 5))
    (fun n _ => if n = 1 then some (Err.other 5) else none) [1, 2, 3] 2 (Err.other 5) true 2
    (by intro k hk; have hk3 : k < 3 := hk; interval_cases k <;> rfl) (by decide) (by decide)
    (Or.inl rfl) (by intro n _ hn; have h0 : n = 0 := by omega
                     subst h0; rfl)
    (fun _ => rfl) (by decide) (by decide)

/-- C7: when `Recv` yields the results `us`, each of which is encoded without
error, and then an error `e` other than `io.EOF`, the second goroutine returns
`e` itself; it has called `Recv` once per result and once more, and no further;
the output sink has received the results `us` in order; and standard error has
received one `v` per result and nothing else. -/
theorem recv_error_aborts {T U : Type} (enc : Encoder U) (stm : Duplex T U)
    (recv : Nat → Except Err U) (us : List U) (e : Err) (verbose : Bool) (fuel : Nat)
    (hRecv : stm.Recv = some recv)
    (hrecv : ∀ k (hk : k < us.length), recv k = Except.ok us[k])
    (henc : ∀ k (hk : k < us.length), enc k us[k] = none)
    (hfail : recv us.length = Except.error e) (he : e ≠ Err.EOF) (hfuel : us.length < fuel) :
    ∃ g, recvSide verbose enc stm fuel = some g ∧
      g.returned = some (some e) ∧
      calls g.events =
        us.map (fun u => Event.Recv (Except.ok u)) ++ [Event.Recv (Except.error e)] ∧
      stdout g.events = us ∧
      stderr g.events = if verbose then String.mk (List.replicate us.length 'v') else "" := by
  have hloop := recvLoop_recv_fails (T := T) verbose enc recv us fuel e hrecv henc hfail hfuel
  simp only [he, if_false] at hloop
  have hg := recvGoroutine_ret verbose enc recv fuel _ _ hloop
  have hside : recvSide verbose enc stm fuel = some (recvGoroutine verbose enc recv fuel) := by
    simp [recvSide, hRecv]
  rw [hg] at hside
  refine ⟨_, hside, rfl, ?_, ?_, ?_⟩
  · simp only [calls_append, calls_recvRounds]
    simp [calls, Event.isCall]
  · simp only [stdout_append, stdout_recvRounds]
    simp [stdout, Event.written]
  · simp only [stderr, stderrChars_append, stderrChars_recvRounds]
    cases verbose <;> simp [stderrChars]

/-- C7 with two results followed by a failure. -/
theorem recv_error_aborts_witness :
    ∃ g, recvSide true encodeOk recverFailing 3 = some g ∧
      g.returned = some (some (Err.other 9)) ∧
      calls g.events =
        [Event.Recv (Except.ok 1), Event.Recv (Except.ok 2),
          Event.Recv (Except.error (Err.other 9))] ∧
      stdout g.events = [1, 2] ∧
      stderr g.events = "vv" :=
  recv_error_aborts (T := Nat) encodeOk recverFailing
    (fun n => if n < 2 then Except.ok (n + 1) else Except.error (Err.other 9)) [1, 2]
    (Err.other 9) true 3 rfl
    (by intro k hk; have hk2 : k < 2 := hk; interval_cases k <;> rfl)
    (fun _ _ => rfl) rfl (by decide) (by decide)

/-- C8, as amended: `reflectJSONL` has a result exactly when every goroutine
that was started has returned, whatever the schedule; that result is nil exactly
when every goroutine that was started returned nil; an error it returns is the
error returned by one of the goroutines; and once all have returned, an error
returned by a goroutine makes the result an error.  While a started goroutine is
still running there is no result, neither nil nor an error. -/
theorem wait_reports_a_loop_error {T U : Type} (dec : Decoder T) (enc : Encoder U)
    (stm : Duplex T U) (verbose : Bool) (sched : List Bool) (fuel : Nat) :
    ∃ s, reflectJSONL dec enc (some stm) verbose sched fuel = Except.ok s ∧
      (s.result ≠ none ↔
        ∀ g, (sendSide verbose dec stm fuel = some g ∨ recvSide verbose enc stm fuel = some g) →
          g.returned ≠ none) ∧
      (s.result = some none ↔
        ∀ g, (sendSide verbose dec stm fuel = some g ∨ recvSide verbose enc stm fuel = some g) →
          g.returned = some none) ∧
      (∀ e, s.result = some (some e) →
        ∃ g, (sendSide verbose dec stm fuel = some g ∨ recvSide verbose enc stm fuel = some g) ∧
          g.returned = some (some e)) ∧
      ((∀ g, (sendSide verbose dec stm fuel = some g ∨
            recvSide verbose enc stm fuel = some g) → g.returned ≠ none) →
        (∃ g e, (sendSide verbose dec stm fuel = some g ∨
            recvSide verbose enc stm fuel = some g) ∧ g.returned = some (some e)) →
        ∃ e, s.result = some (some e)) := by
  obtain ⟨s, hs, hres⟩ := reflectJSONL_result dec enc stm verbose sched fuel
  have hall : (∀ g, (sendSide verbose dec stm fuel = some g ∨
      recvSide verbose enc stm fuel = some g) → g.returned ≠ none) ↔
      (finished (sendSide verbose dec stm fuel) &&
        finished (recvSide verbose enc stm fuel)) = true := by
    rw [Bool.and_eq_true, finished_iff, finished_iff]
    constructor
    · intro h
      exact ⟨fun g hg => h g (Or.inl hg), fun g hg => h g (Or.inr hg)⟩
    · rintro ⟨h1, h2⟩ g (hg | hg)
      · exact h1 g hg
      · exact h2 g hg
  have hnil : (finished (sendSide verbose dec stm fuel) &&
      finished (recvSide verbose enc stm fuel)) = true →
      (egErr (interleave sched (actsOf (sendSide verbose dec stm fuel))
          (actsOf (recvSide verbose enc stm fuel))) = none ↔
        ∀ g, (sendSide verbose dec stm fuel = some g ∨
          recvSide verbose enc stm fuel = some g) → g.returned = some none) := by
    intro hfin
    rw [Bool.and_eq_true] at hfin
    rw [egErr_interleave_none, egErr_actsOf_none _ hfin.1, egErr_actsOf_none _ hfin.2]
    constructor
    · rintro ⟨h1, h2⟩ g (hg | hg)
      · exact h1 g hg
      · exact h2 g hg
    · intro h
      exact ⟨fun g hg => h g (Or.inl hg), fun g hg => h g (Or.inr hg)⟩
  refine ⟨s, hs, ?_, ?_, ?_, ?_⟩
  · rw [hall, hres]
    by_cases hfin : (finished (sendSide verbose dec stm fuel) &&
        finished (recvSide verbose enc stm fuel)) = true <;> simp [hfin]
  · by_cases hfin : (finished (sendSide verbose dec stm fuel) &&
        finished (recvSide verbose enc stm fuel)) = true
    · rw [hres, if_pos hfin, Option.some.injEq]
      exact hnil hfin
    · rw [hres, if_neg hfin]
      constructor
      · intro h
        cases h
      · intro h
        exact absurd (hall.mp (fun g hg => by rw [h g hg]; simp)) hfin
  · intro e he
    by_cases hfin : (finished (sendSide verbose dec stm fuel) &&
        finished (recvSide verbose enc stm fuel)) = true
    · rw [hres, if_pos hfin, Option.some.injEq] at he
      rcases egErr_interleave_some sched _ _ e he with h | h
      · obtain ⟨g, hg, hr⟩ := egErr_actsOf_some _ e h
        exact ⟨g, Or.inl hg, hr⟩
      · obtain ⟨g, hg, hr⟩ := egErr_actsOf_some _ e h
        exact ⟨g, Or.inr hg, hr⟩
    · rw [hres, if_neg hfin] at he
      cases he
  · intro hret ⟨g, e, hg, hge⟩
    have hfin := hall.mp hret
    rw [hres, if_pos hfin]
    cases hE : egErr (interleave sched (actsOf (sendSide verbose dec stm fuel))
        (actsOf (recvSide verbose enc stm fuel))) with
    | some e2 => exact ⟨e2, rfl⟩
    | none =>
      have := (hnil hfin).mp hE g hg
      rw [hge] at this
      cases this

/-- C8, as stated, fails: with a `Send` that fails on its first call and a `Recv`
that yields results without end, the first goroutine returns a send error as
soon as it has run one iteration, yet `reflectJSONL` has no result, whatever the
fuel and the schedule: the overall result is not an error. -/
theorem loop_error_without_result :
    (∃ g, sendSide true threeRecords failingSenderEndlessRecver 1 = some g ∧
      g.returned = some (some (Err.wrapped "send: " (Err.other 5)))) ∧
    (∀ fuel sched, ∃ s,
      reflectJSONL threeRecords encodeOk (some failingSenderEndlessRecver) true sched fuel =
        Except.ok s ∧
      s.result = none ∧
      (0 < fuel → ∃ g, sendSide true threeRecords failingSenderEndlessRecver fuel = some g ∧
        g.returned = some (some (Err.wrapped "send: " (Err.other 5))))) := by
  refine ⟨⟨_, rfl, rfl⟩, ?_⟩
  intro fuel sched
  obtain ⟨s, hs, hres⟩ :=
    reflectJSONL_result threeRecords encodeOk failingSenderEndlessRecver true sched fuel
  have hspin := recvLoop_endless (T := Nat) true encodeOk (fun _ => Except.ok 0)
    (fun _ => ⟨0, rfl, rfl⟩) fuel 0
  have hrecv : finished (recvSide true encodeOk failingSenderEndlessRecver fuel) = false := by
    simp only [recvSide, failingSenderEndlessRecver, finished, recvGoroutine]
    generalize recvLoop (T := Nat) true encodeOk (fun _ => Except.ok 0) fuel 0 = res at hspin
    obtain ⟨evs, fl⟩ := res
    simp only at hspin
    subst hspin
    rfl
  refine ⟨s, hs, ?_, ?_⟩
  · rw [hres, hrecv]
    simp
  · intro hpos
    obtain ⟨f, rfl⟩ : ∃ f, fuel = f + 1 := ⟨fuel - 1, by omega⟩
    exact ⟨_, rfl, rfl⟩

/-- C9: when the duplex has `SendAndClose` but no `Send`, then whatever the
input, the answers of the duplex, the schedule and the fuel, the payloads passed
to `SendAndClose` are exactly the decoded records, in order, and the session
contains no call of `Close` and none of `Send`, even when the duplex has a
`Close` method. -/
theorem sendAndClose_never_closes {T U : Type} (dec : Decoder T) (enc : Encoder U)
    (stm : Duplex T U) (send : Nat → T → Option Err) (verbose : Bool) (sched : List Bool)
    (fuel : Nat) (hSend : stm.Send = none) (hSendAndClose : stm.SendAndClose = some send) :
    ∃ s, reflectJSONL dec enc (some stm) verbose sched fuel = Except.ok s ∧
      passedToSendAndClose s.trace = decoded s.trace ∧
      (∀ err, Event.Close err ∉ s.trace) ∧
      (∀ pay err, Event.Send pay err ∉ s.trace) := by
  obtain ⟨s, tail, hs, -, -⟩ := reflectJSONL_trace dec enc stm verbose sched fuel
  have hg := sendSide_of_SendAndClose verbose dec stm fuel send hSend hSendAndClose
  have hev := sendGoroutine_sendAndClose_events verbose dec stm send fuel
  have hshape : ∀ e ∈ s.trace, e.ofSendAndCloseLoop = true ∨ e.ofRecvLoop = true := by
    intro e he
    rcases mem_trace dec enc stm verbose sched fuel s hs e he with ⟨g, hg2, hmem⟩ | h | h
    · rw [hg] at hg2
      obtain rfl := Option.some.inj hg2
      rw [hev] at hmem
      exact Or.inl (List.all_eq_true.mp
        (sendLoop_sendAndClose_events verbose dec send fuel 0) e hmem)
    · obtain ⟨g, hg2, hmem⟩ := h
      exact Or.inr (recvSide_events verbose enc stm fuel g hg2 e hmem)
    · subst h
      exact Or.inr rfl
  refine ⟨s, hs, ?_, ?_, ?_⟩
  · unfold passedToSendAndClose decoded
    rw [filterMap_trace Event.closingPayload (by intro e; cases e <;> simp [Event.ofRecvLoop,
        Event.closingPayload]) dec enc stm verbose sched fuel s hs _ hg,
      filterMap_trace Event.decodedPayload (by intro e; cases e <;> simp [Event.ofRecvLoop,
        Event.decodedPayload]) dec enc stm verbose sched fuel s hs _ hg, hev]
    exact sendLoop_sendAndClose_passes verbose dec send fuel 0
  · intro err hmem
    rcases hshape _ hmem with h | h <;> simp [Event.ofSendAndCloseLoop, Event.ofRecvLoop] at h
  · intro pay err hmem
    rcases hshape _ hmem with h | h <;> simp [Event.ofSendAndCloseLoop, Event.ofRecvLoop] at h

/-- C9 for a duplex that also has `Recv` and `Close`, both goroutines running. -/
theorem sendAndClose_never_closes_witness :
    ∃ s, reflectJSONL threeRecords encodeOk (some closingSender) true [true, false, true] 4 =
        Except.ok s ∧
      passedToSendAndClose s.trace = decoded s.trace ∧
      (∀ err, Event.Close err ∉ s.trace) ∧
      (∀ pay err, Event.Send pay err ∉ s.trace) :=
  sendAndClose_never_closes threeRecords encodeOk closingSender (fun _ _ => none) true
    [true, false, true] 4 rfl rfl

/-- C10: when the duplex is not nil and has none of `Send`, `SendAndClose` and
`Recv`, `reflectJSONL` starts no goroutine and returns nil, whatever the input,
the schedule and the fuel; its only effect is the newline written to standard
error in verbose mode: no call on the duplex, no `Decode`, nothing on the output
sink. -/
theorem no_capability_is_a_no_op {T U : Type} (dec : Decoder T) (enc : Encoder U)
    (stm : Duplex T U) (verbose : Bool) (sched : List Bool) (fuel : Nat)
    (hSend : stm.Send = none) (hSendAndClose : stm.SendAndClose = none)
    (hRecv : stm.Recv = none) :
    ∃ s, reflectJSONL dec enc (some stm) verbose sched fuel = Except.ok s ∧
      sendSide verbose dec stm fuel = none ∧
      recvSide verbose enc stm fuel = none ∧
      s.result = some none ∧
      s.trace = (if verbose then [Event.WriteString "\n"] else []) ∧
      calls s.trace = [] ∧
      (∀ res, Event.Decode res ∉ s.trace) ∧
      stdout s.trace = [] ∧
      stderr s.trace = if verbose then "\n" else "" := by
  have hs : sendSide verbose dec stm fuel = none := by
    simp [sendSide, hSend, hSendAndClose]
  have hr : recvSide verbose enc stm fuel = none := by
    simp [recvSide, hRecv]
  refine ⟨Session.mk (p verbose "\n") (some none), ?_, hs, hr, rfl, rfl,
    calls_p verbose _, ?_, stdout_p verbose _, ?_⟩
  · simp [reflectJSONL, hs, hr, actsOf, finished, interleave, effects, egErr]
  · cases verbose <;> simp [p]
  · cases verbose <;> simp [p, stderr, stderrChars]

/-- C10 at the scenario `nil` of the test suite, with input present. -/
theorem no_capability_is_a_no_op_witness :
    ∃ s, reflectJSONL threeRecords encodeOk (some doner) true [] 4 = Except.ok s ∧
      sendSide true threeRecords doner 4 = none ∧
      recvSide true encodeOk doner 4 = none ∧
      s.result = some none ∧
      s.trace = [Event.WriteString "\n"] ∧
      calls s.trace = [] ∧
      (∀ res, Event.Decode res ∉ s.trace) ∧
      stdout s.trace = [] ∧
      stderr s.trace = "\n" :=
  no_capability_is_a_no_op threeRecords encodeOk doner true [] 4 rfl rfl rfl

end GoaStream
